import Mathlib

set_option maxRecDepth 100000

/-!
Verification of the flashcard application (`app.py`) against its
natural-language specification.

The UI layer (`app.py`) is embedded directly.  The generation engine
(`flashcards.generate_flashcards`) is imported by `app.py` but its module is
not part of the sources; where a property depends on it, it is modelled from
the specification and clearly marked as such.

Embedding conventions:
- Python strings are `String` / `List Char`; regex-based passes are explicit
  recursive functions over `List Char`.
- Python dicts used as records (`Flashcard`, quiz state, history entries)
  become structures; all numeric fields of the quiz state are produced by the
  code only through initialization to 0 and increments, so they are `Nat`.
- Python floats are modelled over `ℚ` (only the guarded-division behaviour of
  the score text is at stake, never rounding of a float).
- A Python function that may raise is modelled with `Except`.
-/

/-! ## Data model: flashcards -/

/-- Modelled from the spec: `flashcards.Flashcard` is not under `src/`.  §3 and
§6 of the spec: a card exposes type, difficulty, question and answer as plain
text fields; `asdict` turns it into the dict stored in `cards_state` and in the
quiz history. -/
structure Flashcard where
  type : String
  difficulty : String
  question : String
  answer : String
  deriving Repr, DecidableEq

/-- Modelled from the spec: `flashcards.cards_to_table` is not under `src/`.
The Dataframe in `app.py` has headers Type, Difficulty, Question, Answer, one
row per card in order. -/
def cards_to_table (cards : List Flashcard) : List (List String) :=
  cards.map (fun c => [c.type, c.difficulty, c.question, c.answer])

/-! ## Whitespace normalization (`_preprocess_study_text` in `app.py`) -/

/-- `[\t ]`, the character class of the first `re.sub` pass. -/
def isST (c : Char) : Bool := c == ' ' || c == '\t'

/-- ASCII whitespace as stripped by Python `str.strip()`. -/
def pyWS (c : Char) : Bool :=
  c == ' ' || c == '\t' || c == '\n' || c == '\r' || c == '\x0b' || c == '\x0c'

/-- `raw_text.replace("\r\n", "\n").replace("\r", "\n")`. -/
def normNewlines : List Char → List Char
  | [] => []
  | [c] => [if c == '\r' then '\n' else c]
  | a :: b :: rest =>
    if a == '\r' then
      if b == '\n' then '\n' :: normNewlines rest
      else '\n' :: normNewlines (b :: rest)
    else a :: normNewlines (b :: rest)

/-- `re.sub(r"[\t ]+", " ", text)`: every maximal run of spaces/tabs becomes a
single space. -/
def collapseST : List Char → List Char
  | [] => []
  | [c] => [if isST c then ' ' else c]
  | a :: b :: rest =>
    if isST a then
      if isST b then collapseST (b :: rest)
      else ' ' :: collapseST (b :: rest)
    else a :: collapseST (b :: rest)

/-- `re.sub(r"\n{3,}", "\n\n", text)`: every maximal run of three or more
newlines becomes exactly two. -/
def collapseNL : List Char → List Char
  | [] => []
  | [a] => [a]
  | [a, b] => [a, b]
  | a :: b :: c :: rest =>
    if a == '\n' && b == '\n' && c == '\n' then collapseNL (b :: c :: rest)
    else a :: collapseNL (b :: c :: rest)

/-- Remove the maximal trailing run of whitespace (the right half of
`str.strip()`). -/
def dropTrailWS : List Char → List Char
  | [] => []
  | c :: rest =>
    match dropTrailWS rest with
    | [] => if pyWS c then [] else [c]
    | r => c :: r

/-- `text.strip()`. -/
def stripWS (l : List Char) : List Char :=
  dropTrailWS (l.dropWhile (fun c => pyWS c))

/-- The whole normalization pipeline of `_preprocess_study_text`. -/
def normalizeChars (l : List Char) : List Char :=
  stripWS (collapseNL (collapseST (normNewlines l)))

def normalizeStr (s : String) : String := String.mk (normalizeChars s.data)

def msgNone : String := "Please paste your study notes in the textbox."

def msgEmpty : String :=
  "Please paste your study notes — the input is currently empty."

def msgShort : String :=
  "Your study material looks too short to generate useful flashcards. " ++
  "Please paste at least ~120 characters (a few paragraphs) and try again."

/-- `_preprocess_study_text(raw_text)` from `app.py`: returns
`(clean_text, None)` when valid and `(None, error_message)` when invalid.
`min_chars = 120`. -/
def _preprocess_study_text : Option String → Option String × Option String
  | none => (none, some msgNone)
  | some raw =>
    let text := normalizeStr raw
    if text = "" then (none, some msgEmpty)
    else if text.length < 120 then (none, some msgShort)
    else (some text, none)

/-- A normalized sample study text (≥ 120 characters, already in normal form). -/
def sampleText : String :=
  "Photosynthesis is the process by which green plants convert light " ++
  "energy into chemical energy. Chlorophyll absorbs light in the leaves " ++
  "of plants."

/-- C3: `_preprocess_study_text` enforces the 120-character minimum: a
non-empty normalized input shorter than 120 characters yields
`(None, error message)`, and a normalized input of length at least 120 yields
`(clean_text, None)` with `clean_text` the normalized text. -/
theorem preprocess_min_length (raw : String) :
    (normalizeStr raw ≠ "" → (normalizeStr raw).length < 120 →
      _preprocess_study_text (some raw) = (none, some msgShort)) ∧
    (120 ≤ (normalizeStr raw).length →
      _preprocess_study_text (some raw) = (some (normalizeStr raw), none)) := by
  constructor
  · intro h1 h2
    simp only [_preprocess_study_text]
    rw [if_neg h1, if_pos h2]
  · intro h
    have h1 : normalizeStr raw ≠ "" := by
      intro he
      rw [he] at h
      simp [String.length] at h
    simp only [_preprocess_study_text]
    rw [if_neg h1, if_neg (by omega)]

/-- Witness for C3 at concrete inputs: a short input is rejected with the
too-short message, and a long normalized input is returned unchanged. -/
theorem preprocess_min_length_witness :
    _preprocess_study_text (some "hi") = (none, some msgShort) ∧
    _preprocess_study_text (some sampleText) = (some (normalizeStr sampleText), none) :=
  ⟨(preprocess_min_length "hi").1 (by decide) (by decide),
   (preprocess_min_length sampleText).2 (by decide)⟩

/-! ## `ui_generate` (`app.py`)

`ui_generate` calls `generate_flashcards(cleaned_text, n_cards, style=...,
difficulty=..., use_llm=...)`, which lives in the missing `flashcards` module
and may raise.  `ui_generate` is therefore parameterized over that call: a
`GenFun` returns `.error e` exactly when the Python call raises an exception
whose `str` is `e`. -/

def GenFun : Type :=
  String → Nat → String → String → Bool → Except String (List Flashcard × String × String)

/-- `str(e).strip()` applied to an exception message. -/
def pyStrip (s : String) : String := String.mk (stripWS s.data)

/-- The status markdown built by `ui_generate` on success. -/
def genStatus (k : Nat) (mode : String) : String :=
  if mode = "fallback" then
    "**Generated " ++ toString k ++ " flashcards.** Mode: `" ++ mode ++ "`\n\n" ++
    "**Note:** Using offline fallback generation (LLM disabled or unavailable).\n\n" ++
    "Go to the **Quiz** tab to start practicing."
  else
    "**Generated " ++ toString k ++ " flashcards.** Mode: `" ++ mode ++ "`\n\n" ++
    "Go to the **Quiz** tab to start practicing."

/-- `ui_generate(study_text, n_cards, style, difficulty, use_llm)` from
`app.py`.  The `(none, none)` arm is unreachable: `_preprocess_study_text`
never returns that shape. -/
def ui_generate (gen : GenFun) (study_text : Option String) (n_cards : Nat)
    (style difficulty : String) (use_llm : Bool) :
    List (List String) × String × String × List Flashcard :=
  match _preprocess_study_text study_text with
  | (_, some err) => ([], "**Error:** " ++ err, "", [])
  | (none, none) => ([], "", "", [])
  | (some cleaned, none) =>
    match gen cleaned n_cards style difficulty use_llm with
    | .error e =>
      let msg := if pyStrip e = "" then "Unknown error" else pyStrip e
      ([], "**Error:** " ++ msg, msg, [])
    | .ok (cards, mode, raw) =>
      (cards_to_table cards, genStatus cards.length mode, raw, cards)

/-- C1: any exception raised by the generation call is caught by `ui_generate`
and converted into an error status together with an empty table, the stripped
message as raw text, and an empty card state.  (`ui_generate` always returns a
four-tuple and never propagates an exception: it is a total function into the
four-tuple type by construction.) -/
theorem ui_generate_catches (gen : GenFun) (t : Option String) (n : Nat)
    (style difficulty : String) (u : Bool) (cleaned e : String)
    (hpre : _preprocess_study_text t = (some cleaned, none))
    (hgen : gen cleaned n style difficulty u = .error e) :
    ui_generate gen t n style difficulty u =
      ([], "**Error:** " ++ (if pyStrip e = "" then "Unknown error" else pyStrip e),
       (if pyStrip e = "" then "Unknown error" else pyStrip e), []) := by
  simp only [ui_generate, hpre, hgen]

/-- A generation call that always raises. -/
def genBoom : GenFun := fun _ _ _ _ _ => .error "boom"

/-- Witness for C1 at a concrete input: preprocessing succeeds on the sample
text and the raising generator is converted to an error result. -/
theorem ui_generate_catches_witness :
    _preprocess_study_text (some sampleText) = (some (normalizeStr sampleText), none) ∧
    ui_generate genBoom (some sampleText) 10 "Q/A" "medium" true =
      ([], "**Error:** boom", "boom", []) := by
  refine ⟨by decide, ?_⟩
  have h := ui_generate_catches genBoom (some sampleText) 10 "Q/A" "medium" true
    (normalizeStr sampleText) "boom" (by decide) rfl
  rw [h]
  decide

/-- C2 (amended): a validation error for malformed text input is returned
before any generation attempt — when text validation fails, `ui_generate`
returns the error message with empty table/raw/state, and the generator is
never invoked (the result does not depend on it). -/
theorem ui_generate_text_validation (gen gen2 : GenFun) (t : Option String) (n : Nat)
    (style difficulty : String) (u : Bool) (e : String)
    (herr : (_preprocess_study_text t).2 = some e) :
    ui_generate gen t n style difficulty u = ([], "**Error:** " ++ e, "", []) ∧
    ui_generate gen t n style difficulty u = ui_generate gen2 t n style difficulty u := by
  obtain ⟨c, e', hpre⟩ : ∃ c e', _preprocess_study_text t = (c, e') := ⟨_, _, rfl⟩
  rw [hpre] at herr
  simp only at herr
  subst herr
  constructor
  · simp only [ui_generate, hpre]
  · simp only [ui_generate, hpre]

/-- A generation call that always succeeds with one fixed card. -/
def genConst : GenFun := fun _ _ _ _ _ =>
  .ok ([⟨"qa", "medium", "Q1", "A1"⟩], "fallback", "")

/-- A second generation call with a different successful result. -/
def genConst2 : GenFun := fun _ _ _ _ _ => .ok ([], "llm", "other")

/-- Witness for C2 (amended) at a concrete input: on empty text, `ui_generate`
returns the validation error without consulting the generator. -/
theorem ui_generate_text_validation_witness :
    (_preprocess_study_text (some "")).2 = some msgEmpty ∧
    ui_generate genBoom (some "") 10 "Q/A" "medium" true =
      ([], "**Error:** " ++ msgEmpty, "", []) :=
  ⟨by decide,
   (ui_generate_text_validation genBoom genConst (some "") 10 "Q/A" "medium" true
      msgEmpty (by decide)).1⟩

/-- C2 counterexample: with valid text and `n_cards = 31`, outside the 3–30
bounds, `ui_generate` does not return a validation error — it invokes the
generator (the output depends on which generator is supplied) and returns the
generator's cards as the card state. -/
theorem ui_generate_no_n_validation :
    (ui_generate genConst (some sampleText) 31 "Q/A" "medium" false).2.2.2 =
      [⟨"qa", "medium", "Q1", "A1"⟩] ∧
    ui_generate genConst (some sampleText) 31 "Q/A" "medium" false ≠
      ui_generate genConst2 (some sampleText) 31 "Q/A" "medium" false := by
  constructor
  · decide
  · decide

/-! ## Quiz session state (`app.py`)

The quiz state dict is embedded as a structure.  All numeric fields are
created as `0` and only ever incremented by the quiz functions, so they are
`Nat`; the `idx < 0` test of `ui_mark_answer` is consequently omitted (it can
never fire).  Python dict mutation becomes functional update: each `ui_*`
function returns the new state as the first component of its five-tuple
`(state, progress, question, score, feedback)`. -/

/-- One entry of the quiz `history` list (`ui_mark_answer`). -/
structure HistoryEntry where
  question : String
  answer : String
  type : String
  difficulty : String
  result : String
  deriving Repr, DecidableEq

structure QuizState where
  cards : List Flashcard
  idx : Nat
  revealed : Bool
  marked : Bool
  correct : Nat
  incorrect : Nat
  answered : Nat
  history : List HistoryEntry
  finished : Bool
  deriving Repr, DecidableEq

/-- `_quiz_init_state(cards_state)` from `app.py`. -/
def _quiz_init_state (cards_state : List Flashcard) : QuizState :=
  { cards := cards_state
    idx := 0
    revealed := false
    marked := false
    correct := 0
    incorrect := 0
    answered := 0
    history := []
    finished := false }

/-- `acc = (correct / answered * 100.0) if answered else 0.0`, over `ℚ`. -/
def quizAccuracy (s : QuizState) : ℚ :=
  if s.answered ≠ 0 then (s.correct : ℚ) / (s.answered : ℚ) * 100 else 0

/-- Python's `f"{acc:.1f}"` for the non-negative accuracies that occur here:
one decimal digit (rounding differences of binary floats are immaterial to the
stated properties). -/
def fmt1 (q : ℚ) : String :=
  toString (⌊q * 10 + 1 / 2⌋ / 10) ++ "." ++ toString (⌊q * 10 + 1 / 2⌋ % 10)

/-- `_quiz_score_text(state)` from `app.py`. -/
def _quiz_score_text (s : QuizState) : String :=
  "Correct: **" ++ toString s.correct ++ "**\n\n" ++
  "Incorrect: **" ++ toString s.incorrect ++ "**\n\n" ++
  "Total answered: **" ++ toString s.answered ++ "**\n\n" ++
  "Accuracy: **" ++ fmt1 (quizAccuracy s) ++ "%**"

/-- `_quiz_progress_text(state)` from `app.py`. -/
def _quiz_progress_text (s : QuizState) : String :=
  if s.cards = [] then ""
  else if s.finished then
    "Finished! " ++ toString s.cards.length ++ " / " ++ toString s.cards.length
  else "Question " ++ toString (s.idx + 1) ++ " / " ++ toString s.cards.length

/-- `_quiz_current_question(state)` from `app.py`. -/
def _quiz_current_question (s : QuizState) : String :=
  if s.cards = [] ∨ s.cards.length ≤ s.idx then ""
  else ((s.cards.get? s.idx).map Flashcard.question).getD ""

/-- `_quiz_current_answer(state)` from `app.py`. -/
def _quiz_current_answer (s : QuizState) : String :=
  if s.cards = [] ∨ s.cards.length ≤ s.idx then ""
  else ((s.cards.get? s.idx).map Flashcard.answer).getD ""

/-- `ui_start_quiz(cards_state)` from `app.py`. -/
def ui_start_quiz (cards_state : List Flashcard) :
    QuizState × String × String × String × String :=
  if cards_state = [] then
    (_quiz_init_state [], "**Error:** No flashcards yet. Generate flashcards first.",
     "", "", "")
  else
    let s := _quiz_init_state cards_state
    (s, _quiz_progress_text s, _quiz_current_question s, _quiz_score_text s, "")

/-- `ui_reveal_answer(quiz_state)` from `app.py`.  The Python guard
`not quiz_state or not quiz_state.get("cards")` reduces to `cards = []` in the
structure embedding. -/
def ui_reveal_answer (s : QuizState) : QuizState × String × String × String × String :=
  if s.cards = [] then (s, "", "", "", "**Error:** Start the quiz first.")
  else if s.finished then
    (s, _quiz_progress_text s, "", _quiz_score_text s, "Quiz is finished.")
  else
    let s' := { s with revealed := true }
    (s', _quiz_progress_text s', _quiz_current_question s', _quiz_score_text s',
     "**Answer:** " ++ _quiz_current_answer s')

/-- The history record appended by `ui_mark_answer`. -/
def markEntry (s : QuizState) (is_correct : Bool) : HistoryEntry :=
  { question := ((s.cards.get? s.idx).map Flashcard.question).getD ""
    answer := ((s.cards.get? s.idx).map Flashcard.answer).getD ""
    type := ((s.cards.get? s.idx).map Flashcard.type).getD ""
    difficulty := ((s.cards.get? s.idx).map Flashcard.difficulty).getD ""
    result := if is_correct then "correct" else "incorrect" }

/-- `ui_mark_answer(quiz_state, is_correct)` from `app.py`. -/
def ui_mark_answer (s : QuizState) (is_correct : Bool) :
    QuizState × String × String × String × String :=
  if s.cards = [] then (s, "", "", "", "**Error:** Start the quiz first.")
  else if s.finished then
    (s, _quiz_progress_text s, "", _quiz_score_text s, "Quiz is finished.")
  else if s.marked then
    (s, _quiz_progress_text s, _quiz_current_question s, _quiz_score_text s,
     "You already marked this question. Click **Next Question**.")
  else if s.cards.length ≤ s.idx then
    let s' := { s with finished := true }
    (s', _quiz_progress_text s', "", _quiz_score_text s', "Quiz is finished.")
  else
    let s' := { s with
      answered := s.answered + 1
      correct := if is_correct then s.correct + 1 else s.correct
      incorrect := if is_correct then s.incorrect else s.incorrect + 1
      marked := true
      history := s.history ++ [markEntry s is_correct] }
    (s', _quiz_progress_text s', _quiz_current_question s', _quiz_score_text s',
     "Marked **" ++ (if is_correct then "Correct" else "Incorrect") ++
       "**. Click **Next Question**.")

/-- `ui_next_question(quiz_state)` from `app.py`. -/
def ui_next_question (s : QuizState) : QuizState × String × String × String × String :=
  if s.cards = [] then (s, "", "", "", "**Error:** Start the quiz first.")
  else if s.finished then
    (s, _quiz_progress_text s, "", _quiz_score_text s, "Quiz is finished.")
  else
    let s1 := { s with idx := s.idx + 1, revealed := false, marked := false }
    if s.cards.length ≤ s.idx + 1 then
      let s2 := { s1 with finished := true }
      (s2, _quiz_progress_text s2, "", _quiz_score_text s2, "Quiz is finished.")
    else
      (s1, _quiz_progress_text s1, _quiz_current_question s1, _quiz_score_text s1, "")

/-- A sample card for concrete witnesses. -/
def sampleCard : Flashcard := ⟨"qa", "medium", "Q1", "A1"⟩

/-- C6: the quiz presents one question at a time in card order:
`ui_start_quiz` on `k ≥ 1` cards puts the cursor at index 0 and reports
"Question 1 / k" with the first card's question; `ui_next_question` on an
unfinished non-empty session increments the index by exactly one and resets
the revealed and marked flags, and the session becomes finished exactly when
the new index reaches `k`. -/
theorem quiz_sequential (cs : List Flashcard) (s : QuizState) :
    (cs ≠ [] →
      (ui_start_quiz cs).1.idx = 0 ∧
      (ui_start_quiz cs).2.1 = "Question 1 / " ++ toString cs.length ∧
      (ui_start_quiz cs).2.2.1 = ((cs.get? 0).map Flashcard.question).getD "") ∧
    (s.cards ≠ [] → s.finished = false →
      (ui_next_question s).1.idx = s.idx + 1 ∧
      (ui_next_question s).1.revealed = false ∧
      (ui_next_question s).1.marked = false ∧
      ((ui_next_question s).1.finished = true ↔ s.cards.length ≤ s.idx + 1)) := by
  constructor
  · intro h
    have hpos : 0 < cs.length := List.length_pos.mpr h
    have hlen : ¬ cs.length ≤ 0 := by omega
    refine ⟨?_, ?_, ?_⟩
    · simp [ui_start_quiz, h, _quiz_init_state]
    · simp only [ui_start_quiz, if_neg h, _quiz_progress_text, _quiz_init_state]
      norm_num [h]
      congr 1
    · simp [ui_start_quiz, h, _quiz_init_state, _quiz_current_question, hlen]
  · intro h hf
    simp only [ui_next_question, if_neg h, hf, if_neg (Bool.false_ne_true)]
    by_cases hle : s.cards.length ≤ s.idx + 1
    · simp [hle]
    · simp [hle]

/-- Witness for C6 at a concrete one-card session. -/
theorem quiz_sequential_witness :
    (ui_start_quiz [sampleCard]).1.idx = 0 ∧
    (ui_next_question (_quiz_init_state [sampleCard])).1.idx =
      (_quiz_init_state [sampleCard]).idx + 1 :=
  ⟨((quiz_sequential [sampleCard] (_quiz_init_state [sampleCard])).1 (by decide)).1,
   ((quiz_sequential [sampleCard] (_quiz_init_state [sampleCard])).2
      (by decide) (by decide)).1⟩

/-- C7: scoring counts each question at most once.  On an unfinished,
unmarked session with the index in range, `ui_mark_answer` increments
`answered`, increments exactly one of `correct`/`incorrect` according to
`is_correct`, sets `marked`, and appends exactly one record to the history;
when the question is already marked or the session is finished, all counters
and the history are unchanged. -/
theorem mark_counts_once (s : QuizState) (b : Bool) :
    (s.finished = false → s.marked = false → s.idx < s.cards.length →
      (ui_mark_answer s b).1.answered = s.answered + 1 ∧
      (ui_mark_answer s b).1.correct = (if b then s.correct + 1 else s.correct) ∧
      (ui_mark_answer s b).1.incorrect = (if b then s.incorrect else s.incorrect + 1) ∧
      (ui_mark_answer s b).1.marked = true ∧
      (ui_mark_answer s b).1.history = s.history ++ [markEntry s b]) ∧
    (s.marked = true ∨ s.finished = true →
      (ui_mark_answer s b).1.answered = s.answered ∧
      (ui_mark_answer s b).1.correct = s.correct ∧
      (ui_mark_answer s b).1.incorrect = s.incorrect ∧
      (ui_mark_answer s b).1.history = s.history) := by
  constructor
  · intro hf hm hidx
    have hc : s.cards ≠ [] := by
      intro he
      rw [he] at hidx
      simp at hidx
    have hnle : ¬ s.cards.length ≤ s.idx := by omega
    simp [ui_mark_answer, hc, hf, hm, hnle]
  · intro h
    by_cases hc : s.cards = []
    · simp [ui_mark_answer, hc]
    · by_cases hf : s.finished = true
      · simp [ui_mark_answer, hc, hf]
      · have hm : s.marked = true := h.resolve_right hf
        simp [ui_mark_answer, hc, hf, hm]

/-- A one-card session whose only question is already marked. -/
def markedSample : QuizState := { _quiz_init_state [sampleCard] with marked := true }

/-- Witness for C7 at concrete sessions: marking the fresh one-card session
increments `answered`; marking an already-marked session leaves it unchanged. -/
theorem mark_counts_once_witness :
    (ui_mark_answer (_quiz_init_state [sampleCard]) true).1.answered =
      (_quiz_init_state [sampleCard]).answered + 1 ∧
    (ui_mark_answer markedSample true).1.answered = markedSample.answered :=
  ⟨((mark_counts_once (_quiz_init_state [sampleCard]) true).1 rfl rfl (by decide)).1,
   ((mark_counts_once markedSample true).2 (Or.inl rfl)).1⟩

/-- C9: `ui_reveal_answer` on a non-empty, unfinished session changes only the
`revealed` flag (to `true`); every other field of the state is unchanged. -/
theorem reveal_frame (s : QuizState) (h1 : s.cards ≠ []) (h2 : s.finished = false) :
    (ui_reveal_answer s).1 = { s with revealed := true } := by
  simp [ui_reveal_answer, h1, h2]

/-- Witness for C9 at a concrete one-card session. -/
theorem reveal_frame_witness :
    (ui_reveal_answer (_quiz_init_state [sampleCard])).1 =
      { _quiz_init_state [sampleCard] with revealed := true } :=
  reveal_frame (_quiz_init_state [sampleCard]) (by decide) rfl

/-- C10: `_quiz_score_text` is total (a Lean function by construction) and its
division is guarded: on the freshly initialized state it reports accuracy
`0.0`, and on every state with `answered = 0` the guard yields accuracy `0`
rather than dividing by zero. -/
theorem score_text_guarded (cs : List Flashcard) (s : QuizState) :
    _quiz_score_text (_quiz_init_state cs) =
      "Correct: **0**\n\nIncorrect: **0**\n\nTotal answered: **0**\n\nAccuracy: **0.0%**" ∧
    (s.answered = 0 → quizAccuracy s = 0 ∧ fmt1 (quizAccuracy s) = "0.0") := by
  have hacc : ∀ t : QuizState, t.answered = 0 → quizAccuracy t = 0 := by
    intro t ht
    simp [quizAccuracy, ht]
  have hfmt : fmt1 0 = "0.0" := by
    have h1 : ((0 : ℚ) * 10 + 1 / 2) = 1 / 2 := by norm_num
    have h2 : ⌊(1 : ℚ) / 2⌋ = 0 := by norm_num [Int.floor_eq_zero_iff]
    simp only [fmt1, h1, h2]
    decide
  constructor
  · simp only [_quiz_score_text]
    rw [hacc _ rfl, hfmt]
    simp only [_quiz_init_state]
    rfl
  · intro h
    exact ⟨hacc s h, by rw [hacc s h, hfmt]⟩

/-- Witness for C10 at the concrete empty initial state. -/
theorem score_text_guarded_witness :
    quizAccuracy (_quiz_init_state []) = 0 ∧
    fmt1 (quizAccuracy (_quiz_init_state [])) = "0.0" :=
  (score_text_guarded [] (_quiz_init_state [])).2 rfl

/-- The quiz states reachable through the UI: a fresh state, a started quiz,
and anything obtained from a reachable state by revealing, marking or
advancing. -/
inductive QuizReachable : QuizState → Prop
  | init (cs : List Flashcard) : QuizReachable (_quiz_init_state cs)
  | start (cs : List Flashcard) : QuizReachable (ui_start_quiz cs).1
  | reveal (s : QuizState) : QuizReachable s → QuizReachable (ui_reveal_answer s).1
  | mark (s : QuizState) (b : Bool) : QuizReachable s → QuizReachable (ui_mark_answer s b).1
  | next (s : QuizState) : QuizReachable s → QuizReachable (ui_next_question s).1

/-- C8: in every reachable quiz state, `answered = correct + incorrect` and
the history length equals `answered`. -/
theorem quiz_counters_invariant (s : QuizState) (h : QuizReachable s) :
    s.answered = s.correct + s.incorrect ∧ s.history.length = s.answered := by
  induction h with
  | init cs => simp [_quiz_init_state]
  | start cs =>
      by_cases hc : cs = [] <;> simp [ui_start_quiz, hc, _quiz_init_state]
  | reveal s hs ih =>
      by_cases hc : s.cards = []
      · simpa [ui_reveal_answer, hc] using ih
      · by_cases hf : s.finished = true
        · simpa [ui_reveal_answer, hc, hf] using ih
        · simpa [ui_reveal_answer, hc, hf] using ih
  | mark s b hs ih =>
      by_cases hc : s.cards = []
      · simpa [ui_mark_answer, hc] using ih
      · by_cases hf : s.finished = true
        · simpa [ui_mark_answer, hc, hf] using ih
        · by_cases hm : s.marked = true
          · simpa [ui_mark_answer, hc, hf, hm] using ih
          · by_cases hle : s.cards.length ≤ s.idx
            · simpa [ui_mark_answer, hc, hf, hm, hle] using ih
            · obtain ⟨ih1, ih2⟩ := ih
              cases b <;> refine ⟨?_, ?_⟩ <;>
                simp [ui_mark_answer, hc, hf, hm, hle] <;> omega
  | next s hs ih =>
      by_cases hc : s.cards = []
      · simpa [ui_next_question, hc] using ih
      · by_cases hf : s.finished = true
        · simpa [ui_next_question, hc, hf] using ih
        · by_cases hle : s.cards.length ≤ s.idx + 1
          · simpa [ui_next_question, hc, hf, hle] using ih
          · simpa [ui_next_question, hc, hf, hle] using ih

/-- Witness for C8 at the concrete fresh state. -/
theorem quiz_counters_invariant_witness :
    (_quiz_init_state []).answered =
        (_quiz_init_state []).correct + (_quiz_init_state []).incorrect ∧
    (_quiz_init_state []).history.length = (_quiz_init_state []).answered :=
  quiz_counters_invariant (_quiz_init_state []) (QuizReachable.init [])

/-! ## The deterministic generation engine

Modelled from the spec: `flashcards.generate_flashcards` and its helpers are
not under `src/` (only their caller `app.py` is).  The definitions below
follow §4.2 and §4.5 of the spec: sentence segmentation on terminal
punctuation, merging of segments shorter than ~25 characters, heuristic
scoring (definitional pattern, numbers, plausible length) with boilerplate
(single-word segments) ranked out, stable descending ranking, style-directed
rendering, truncation to the requested count, and never padding a short
result.  §4.2 also guarantees that this path never fails for well-formed
non-empty input, so when boilerplate filtering would discard every candidate
the top segment is retained. -/

def isTermCh (c : Char) : Bool := c == '.' || c == '!' || c == '?'

/-- Sentence segmentation: split after terminal punctuation, keeping the
punctuation with its sentence. -/
def splitSentsGo (acc : List Char) : List Char → List (List Char)
  | [] => if acc = [] then [] else [acc.reverse]
  | c :: rest =>
    if isTermCh c then (acc.reverse ++ [c]) :: splitSentsGo [] rest
    else splitSentsGo (c :: acc) rest

def splitSents (l : List Char) : List (List Char) := splitSentsGo [] l

/-- Merge segments shorter than ~25 characters into the next one. -/
def mergeShort : List (List Char) → List (List Char)
  | [] => []
  | [s] => [s]
  | s :: t :: rest =>
    if s.length < 25 then mergeShort ((s ++ t) :: rest)
    else s :: mergeShort (t :: rest)
termination_by l => l.length
decreasing_by all_goals simp

def startsWithSeq : List Char → List Char → Bool
  | [], _ => true
  | _ :: _, [] => false
  | p :: ps, c :: cs => p == c && startsWithSeq ps cs

def containsSeq (pat : List Char) : List Char → Bool
  | [] => startsWithSeq pat []
  | c :: cs => startsWithSeq pat (c :: cs) || containsSeq pat cs

/-- Definitional pattern: `<Term> is/are/refers to ...`. -/
def defPattern (s : List Char) : Bool :=
  containsSeq " is ".data s || containsSeq " are ".data s ||
    containsSeq " refers to ".data s

/-- Heuristic candidate score: definitional pattern, enumerated/numbered fact,
length within a plausible range. -/
def sentScore (s : List Char) : Nat :=
  (if defPattern s then 3 else 0) +
  (if s.any (fun c => c.isDigit) then 1 else 0) +
  (if 40 ≤ s.length ∧ s.length ≤ 200 then 2 else 0)

/-- Boilerplate: a single-word segment (contains no space). -/
def isBoiler (s : List Char) : Bool := !s.any (fun c => c == ' ')

/-- Candidate extraction and ranking (§4.2 steps 1–3): segment, merge short
segments, drop boilerplate (keeping the top segment when everything would be
dropped, per the guaranteed-success requirement), then sort by score
descending, stably. -/
def rankCandidates (text : String) : List (List Char) :=
  let sents := mergeShort (splitSents text.data)
  let kept := sents.filter (fun s => !isBoiler s)
  let kept2 := if kept = [] then sents.take 1 else kept
  List.insertionSort (fun a b => sentScore b ≤ sentScore a) kept2

/-- The text before the first occurrence of a pattern (term extraction for
Definition cards). -/
def beforeSeq (pat : List Char) : List Char → List Char
  | [] => []
  | c :: cs => if startsWithSeq pat (c :: cs) then [] else c :: beforeSeq pat cs

/-- The longest space-separated word of a segment (cloze target). -/
def longestWord (s : List Char) : List Char :=
  (((String.mk s).splitOn " ").map String.data).foldl
    (fun best w => if best.length < w.length then w else best) []

/-- §4.2 step 4: render one ranked segment as a card in the requested style;
§4.2 step 5: difficulty is taken uniformly from the request. -/
def renderCard (style difficulty : String) (s : List Char) : Flashcard :=
  if style = "Definition" then
    { type := "definition", difficulty := difficulty,
      question := String.mk (beforeSeq " is ".data s), answer := String.mk s }
  else if style = "Cloze" then
    { type := "cloze", difficulty := difficulty,
      question := ((String.mk s).replace (String.mk (longestWord s)) "____"),
      answer := String.mk (longestWord s) }
  else
    { type := "qa", difficulty := difficulty,
      question := "What does the text say about " ++
        String.mk (beforeSeq " is ".data s) ++ "?",
      answer := String.mk s }

/-- §4.2 steps 4–6: top `n` candidates, rendered; fewer than `n` cards are
returned rather than padding. -/
def deterministic_cards (text : String) (n : Nat) (style difficulty : String) :
    List Flashcard :=
  ((rankCandidates text).take n).map (renderCard style difficulty)

/-- Modelled from the spec: the orchestrator `generate` (§4.5).  `hasKey`
models credential discovery (§6), `reply` the transport outcome (`none` for
any of its three failure kinds), and `parse` the response parser (§4.4,
returning `[]` when nothing usable was recovered).  Decision rule: if
`use_llm` is false, no credential is configured, the transport fails, or
parsing yields no card, run the deterministic generator and report mode
`"fallback"` with empty raw text; otherwise report the parsed cards truncated
to `n` with mode `"llm"` and the raw reply. -/
def generate_flashcards (text : String) (n : Nat) (style difficulty : String)
    (use_llm hasKey : Bool) (reply : Option String)
    (parse : String → List Flashcard) : List Flashcard × String × String :=
  if use_llm = false || hasKey = false then
    (deterministic_cards text n style difficulty, "fallback", "")
  else
    match reply with
    | none => (deterministic_cards text n style difficulty, "fallback", "")
    | some raw =>
      match parse raw with
      | [] => (deterministic_cards text n style difficulty, "fallback", "")
      | c :: cs => ((c :: cs).take n, "llm", raw)

theorem splitSentsGo_ne_nil (l acc : List Char) (h : acc ≠ [] ∨ l ≠ []) :
    splitSentsGo acc l ≠ [] := by
  induction l generalizing acc with
  | nil =>
    have ha : acc ≠ [] := h.resolve_right (by simp)
    simp [splitSentsGo, ha]
  | cons c rest ih =>
    simp only [splitSentsGo]
    by_cases ht : isTermCh c
    · simp [ht]
    · simp only [ht, if_false]
      exact ih (c :: acc) (Or.inl (by simp))

theorem mergeShort_ne_nil (l : List (List Char)) (h : l ≠ []) :
    mergeShort l ≠ [] := by
  induction l using mergeShort.induct with
  | case1 => simp at h
  | case2 s => simp [mergeShort]
  | case3 s t rest hlt ih =>
    rw [mergeShort, if_pos hlt]
    exact ih (by simp)
  | case4 s t rest hlt ih =>
    rw [mergeShort, if_neg hlt]
    simp

theorem rankCandidates_length_pos (text : String) (h : text.data ≠ []) :
    0 < (rankCandidates text).length := by
  have hs : splitSents text.data ≠ [] :=
    splitSentsGo_ne_nil text.data [] (Or.inr h)
  have hm : mergeShort (splitSents text.data) ≠ [] :=
    mergeShort_ne_nil _ hs
  rw [rankCandidates]
  simp only [List.length_insertionSort]
  by_cases hk : (mergeShort (splitSents text.data)).filter (fun s => !isBoiler s) = []
  · simp only [hk, if_pos rfl]
    have := List.length_pos.mpr hm
    simp [List.length_take]
    omega
  · simp only [if_neg hk]
    exact List.length_pos.mpr hk

/-- C4: for non-empty cleaned text, `generate` with `use_llm = false` returns
mode `"fallback"` and a card list whose length is positive and at most `n`,
with fewer than `n` cards only when the source yields fewer than `n`
candidates. -/
theorem generate_fallback_count (text : String) (n : Nat) (style difficulty : String)
    (hasKey : Bool) (reply : Option String) (parse : String → List Flashcard)
    (ht : text.data ≠ []) (hn : 1 ≤ n) :
    (generate_flashcards text n style difficulty false hasKey reply parse).2.1 =
      "fallback" ∧
    0 < (generate_flashcards text n style difficulty false hasKey reply parse).1.length ∧
    (generate_flashcards text n style difficulty false hasKey reply parse).1.length ≤ n ∧
    ((generate_flashcards text n style difficulty false hasKey reply parse).1.length < n →
      (rankCandidates text).length < n) := by
  have hpos := rankCandidates_length_pos text ht
  have hlen : (generate_flashcards text n style difficulty false hasKey reply
      parse).1.length = min n (rankCandidates text).length := by
    simp [generate_flashcards, deterministic_cards, List.length_take]
  refine ⟨by simp [generate_flashcards], ?_, ?_, ?_⟩
  · rw [hlen]; omega
  · rw [hlen]; omega
  · rw [hlen]; omega

/-- Witness for C4 at the concrete sample text. -/
theorem generate_fallback_count_witness :
    sampleText.data ≠ [] ∧
    (generate_flashcards sampleText 10 "Q/A" "medium" false false none
        (fun _ => [])).2.1 = "fallback" ∧
    0 < (generate_flashcards sampleText 10 "Q/A" "medium" false false none
        (fun _ => [])).1.length :=
  ⟨by decide,
   (generate_fallback_count sampleText 10 "Q/A" "medium" false none
      (fun _ => []) (by decide) (by decide)).1,
   (generate_fallback_count sampleText 10 "Q/A" "medium" false none
      (fun _ => []) (by decide) (by decide)).2.1⟩

/-! ## Whitespace-normal-form properties of the cleaned text -/

/-- Scanner: the list contains two adjacent space-or-tab characters. -/
def hasTwoST : List Char → Bool
  | a :: b :: rest => (isST a && isST b) || hasTwoST (b :: rest)
  | _ => false

/-- Scanner: the list contains three adjacent newline characters. -/
def hasTripleNL : List Char → Bool
  | a :: b :: c :: rest =>
    (a == '\n' && b == '\n' && c == '\n') || hasTripleNL (b :: c :: rest)
  | _ => false

theorem hasTwoST_tail {c : Char} {l : List Char}
    (h : hasTwoST (c :: l) = false) : hasTwoST l = false := by
  cases l with
  | nil => rfl
  | cons b rest =>
    simp only [hasTwoST, Bool.or_eq_false_iff] at h
    exact h.2

theorem hasTwoST_append (l t : List Char) (h : hasTwoST (l ++ t) = false) :
    hasTwoST l = false := by
  induction l with
  | nil => rfl
  | cons a l ih =>
    cases l with
    | nil => rfl
    | cons b rest =>
      simp only [List.cons_append] at h
      simp only [hasTwoST, Bool.or_eq_false_iff] at h ⊢
      refine ⟨h.1, ih ?_⟩
      simpa using h.2

theorem hasTwoST_dropWhile (p : Char → Bool) (l : List Char)
    (h : hasTwoST l = false) : hasTwoST (l.dropWhile p) = false := by
  induction l with
  | nil => simpa using h
  | cons c rest ih =>
    rw [List.dropWhile_cons]
    by_cases hp : p c = true
    · rw [if_pos hp]
      exact ih (hasTwoST_tail h)
    · rw [if_neg hp]
      exact h

/-- Adding a head preserves the no-adjacent-space/tab property when the head
or the next character is not a space/tab. -/
theorem hasTwoST_cons (a : Char) (l : List Char) (h1 : hasTwoST l = false)
    (h2 : isST a = false ∨ ∀ b, l.head? = some b → isST b = false) :
    hasTwoST (a :: l) = false := by
  cases l with
  | nil => rfl
  | cons b rest =>
    simp only [hasTwoST, Bool.or_eq_false_iff]
    refine ⟨?_, h1⟩
    rcases h2 with h | h
    · simp [h]
    · simp [h b rfl]

theorem hasTripleNL_tail {c : Char} {l : List Char}
    (h : hasTripleNL (c :: l) = false) : hasTripleNL l = false := by
  cases l with
  | nil => rfl
  | cons b rest =>
    cases rest with
    | nil => rfl
    | cons d rest2 =>
      simp only [hasTripleNL, Bool.or_eq_false_iff] at h
      exact h.2

theorem hasTripleNL_append (l t : List Char) (h : hasTripleNL (l ++ t) = false) :
    hasTripleNL l = false := by
  induction l with
  | nil => rfl
  | cons a l ih =>
    cases l with
    | nil => rfl
    | cons b rest =>
      cases rest with
      | nil => rfl
      | cons d rest2 =>
        simp only [List.cons_append] at h
        simp only [hasTripleNL, Bool.or_eq_false_iff] at h ⊢
        refine ⟨h.1, ih ?_⟩
        simpa using h.2

theorem hasTripleNL_dropWhile (p : Char → Bool) (l : List Char)
    (h : hasTripleNL l = false) : hasTripleNL (l.dropWhile p) = false := by
  induction l with
  | nil => simpa using h
  | cons c rest ih =>
    rw [List.dropWhile_cons]
    by_cases hp : p c = true
    · rw [if_pos hp]
      exact ih (hasTripleNL_tail h)
    · rw [if_neg hp]
      exact h

/-- Adding a head preserves the no-triple-newline property when the head is
not a newline or the list does not begin with two newlines. -/
theorem hasTripleNL_cons (a : Char) (l : List Char) (h1 : hasTripleNL l = false)
    (h2 : ¬ (a = '\n' ∧ ∃ r, l = '\n' :: '\n' :: r)) :
    hasTripleNL (a :: l) = false := by
  cases l with
  | nil => rfl
  | cons b rest =>
    cases rest with
    | nil => rfl
    | cons c rest2 =>
      simp only [hasTripleNL, Bool.or_eq_false_iff]
      refine ⟨?_, h1⟩
      by_cases htr : ((a == '\n') && (b == '\n') && (c == '\n')) = true
      · simp only [Bool.and_eq_true, beq_iff_eq] at htr
        exact absurd ⟨htr.1.1, rest2, by rw [htr.1.2, htr.2]⟩ h2
      · simpa using htr

/-! ### `normNewlines`: no carriage returns survive -/

theorem normNewlines_no_cr (l : List Char) : '\r' ∉ normNewlines l := by
  induction l using normNewlines.induct with
  | case1 => simp [normNewlines]
  | case2 c =>
    simp only [normNewlines, List.mem_singleton]
    by_cases h : c == '\r'
    · simp [h]
    · have hc : ¬ c = '\r' := by simpa using h
      simp only [h, Bool.false_eq_true, if_false]
      exact fun he => hc he.symm
  | case3 a b rest ha hb ih =>
    simp only [normNewlines]
    rw [if_pos ha, if_pos hb]
    simp only [List.mem_cons, not_or]
    exact ⟨by decide, ih⟩
  | case4 a b rest ha hb ih =>
    simp only [normNewlines]
    rw [if_pos ha, if_neg hb]
    simp only [List.mem_cons, not_or]
    exact ⟨by decide, ih⟩
  | case5 a b rest ha ih =>
    simp only [normNewlines]
    rw [if_neg ha]
    simp only [List.mem_cons, not_or]
    refine ⟨?_, ih⟩
    intro he
    exact ha (by rw [← he]; rfl)

/-! ### `collapseST`: no tabs, no adjacent space/tab pairs -/

theorem collapseST_no_tab (l : List Char) : '\t' ∉ collapseST l := by
  induction l using collapseST.induct with
  | case1 => simp [collapseST]
  | case2 c =>
    simp only [collapseST, List.mem_singleton]
    by_cases h : isST c
    · simp [h]
    · have hc : ¬ c = '\t' := by
        intro he
        exact h (by rw [he]; rfl)
      simp only [h, Bool.false_eq_true, if_false]
      exact fun he => hc he.symm
  | case3 a b rest ha hb ih =>
    simp only [collapseST]
    rw [if_pos ha, if_pos hb]
    exact ih
  | case4 a b rest ha hb ih =>
    simp only [collapseST]
    rw [if_pos ha, if_neg hb]
    simp only [List.mem_cons, not_or]
    exact ⟨by decide, ih⟩
  | case5 a b rest ha ih =>
    simp only [collapseST]
    rw [if_neg ha]
    simp only [List.mem_cons, not_or]
    refine ⟨?_, ih⟩
    intro he
    exact ha (by rw [← he]; rfl)

theorem collapseST_mem {x : Char} {l : List Char} (hx : x ∈ collapseST l) :
    x = ' ' ∨ x ∈ l := by
  induction l using collapseST.induct with
  | case1 => simp [collapseST] at hx
  | case2 c =>
    simp only [collapseST, List.mem_singleton] at hx
    by_cases h : isST c
    · rw [if_pos h] at hx
      exact Or.inl hx
    · rw [if_neg h] at hx
      exact Or.inr (by simp [hx])
  | case3 a b rest ha hb ih =>
    rw [collapseST, if_pos ha, if_pos hb] at hx
    rcases ih hx with h | h
    · exact Or.inl h
    · exact Or.inr (List.mem_cons_of_mem a h)
  | case4 a b rest ha hb ih =>
    rw [collapseST, if_pos ha, if_neg (by simp [hb])] at hx
    rcases List.mem_cons.mp hx with h | h
    · exact Or.inl h
    · rcases ih h with h' | h'
      · exact Or.inl h'
      · exact Or.inr (List.mem_cons_of_mem a h')
  | case5 a b rest ha ih =>
    rw [collapseST, if_neg (by simp [ha])] at hx
    rcases List.mem_cons.mp hx with h | h
    · exact Or.inr (by simp [h])
    · rcases ih h with h' | h'
      · exact Or.inl h'
      · exact Or.inr (List.mem_cons_of_mem a h')

/-- The head of `collapseST (b :: rest)` is `b` itself when `b` is not a
space/tab. -/
theorem collapseST_cons_head (b : Char) (rest : List Char) (hb : ¬ isST b = true) :
    ∃ X, collapseST (b :: rest) = b :: X := by
  cases rest with
  | nil =>
    refine ⟨[], ?_⟩
    simp only [collapseST]
    rw [if_neg hb]
  | cons r rs =>
    refine ⟨collapseST (r :: rs), ?_⟩
    simp only [collapseST]
    rw [if_neg hb]

theorem collapseST_noTwo (l : List Char) : hasTwoST (collapseST l) = false := by
  induction l using collapseST.induct with
  | case1 => rfl
  | case2 c => rfl
  | case3 a b rest ha hb ih =>
    simp only [collapseST]
    rw [if_pos ha, if_pos hb]
    exact ih
  | case4 a b rest ha hb ih =>
    simp only [collapseST]
    rw [if_pos ha, if_neg hb]
    obtain ⟨X, hX⟩ := collapseST_cons_head b rest hb
    rw [hX]
    simp only [hasTwoST, Bool.or_eq_false_iff]
    constructor
    · have hbf : isST b = false := by simpa using hb
      simp [hbf]
    · rw [← hX]
      exact ih
  | case5 a b rest ha ih =>
    simp only [collapseST]
    rw [if_neg ha]
    refine hasTwoST_cons a _ ih (Or.inl ?_)
    simpa using ha

/-! ### `collapseNL`: newline runs are bounded by two, everything else kept -/

theorem collapseNL_sublist (l : List Char) : List.Sublist (collapseNL l) l := by
  induction l using collapseNL.induct with
  | case1 => simp [collapseNL]
  | case2 a => simp [collapseNL]
  | case3 a b => simp [collapseNL]
  | case4 a b c rest h ih =>
    simp only [collapseNL]
    rw [if_pos h]
    exact ih.trans (List.sublist_cons_self a (b :: c :: rest))
  | case5 a b c rest h ih =>
    simp only [collapseNL]
    rw [if_neg h]
    exact List.Sublist.cons₂ a ih

theorem collapseNL_headq (l : List Char) : (collapseNL l).head? = l.head? := by
  induction l using collapseNL.induct with
  | case1 => rfl
  | case2 a => rfl
  | case3 a b => rfl
  | case4 a b c rest h ih =>
    simp only [collapseNL]
    rw [if_pos h, ih]
    simp only [Bool.and_eq_true, beq_iff_eq] at h
    simp only [List.head?_cons]
    rw [h.1.1, h.1.2]
  | case5 a b c rest h ih =>
    simp only [collapseNL]
    rw [if_neg h]
    rfl

/-- If the collapsed list starts with two newlines, so did the input. -/
theorem collapseNL_nn (l r : List Char) (h : collapseNL l = '\n' :: '\n' :: r) :
    ∃ r2, l = '\n' :: '\n' :: r2 := by
  induction l using collapseNL.induct with
  | case1 => simp [collapseNL] at h
  | case2 a => simp [collapseNL] at h
  | case3 a b =>
    simp only [collapseNL, List.cons.injEq] at h
    exact ⟨[], by rw [h.1, h.2.1]⟩
  | case4 a b c rest hcond ih =>
    simp only [Bool.and_eq_true, beq_iff_eq] at hcond
    exact ⟨c :: rest, by rw [hcond.1.1, hcond.1.2]⟩
  | case5 a b c rest hcond ih =>
    simp only [collapseNL] at h
    rw [if_neg hcond] at h
    injection h with ha ht
    have hb : b = '\n' := by
      have hh := collapseNL_headq (b :: c :: rest)
      rw [ht, List.head?_cons, List.head?_cons] at hh
      injection hh with hh
      exact hh.symm
    exact ⟨c :: rest, by rw [ha, hb]⟩

theorem collapseNL_noTwo (l : List Char) (h : hasTwoST l = false) :
    hasTwoST (collapseNL l) = false := by
  induction l using collapseNL.induct with
  | case1 => simpa [collapseNL] using h
  | case2 a => simpa [collapseNL] using h
  | case3 a b => simpa [collapseNL] using h
  | case4 a b c rest hcond ih =>
    simp only [collapseNL]
    rw [if_pos hcond]
    exact ih (hasTwoST_tail h)
  | case5 a b c rest hcond ih =>
    simp only [collapseNL]
    rw [if_neg hcond]
    refine hasTwoST_cons a _ (ih (hasTwoST_tail h)) ?_
    have hab : (isST a && isST b) = false := by
      simp only [hasTwoST, Bool.or_eq_false_iff] at h
      exact h.1
    rcases Bool.and_eq_false_iff.mp hab with h' | h'
    · exact Or.inl h'
    · refine Or.inr ?_
      intro x hx
      rw [collapseNL_headq, List.head?_cons] at hx
      injection hx with hx
      rw [← hx]
      exact h'

theorem collapseNL_noTriple (l : List Char) : hasTripleNL (collapseNL l) = false := by
  induction l using collapseNL.induct with
  | case1 => rfl
  | case2 a => rfl
  | case3 a b => rfl
  | case4 a b c rest hcond ih =>
    simp only [collapseNL]
    rw [if_pos hcond]
    exact ih
  | case5 a b c rest hcond ih =>
    simp only [collapseNL]
    rw [if_neg hcond]
    refine hasTripleNL_cons a _ ih ?_
    rintro ⟨ha, r, hr⟩
    obtain ⟨r2, hr2⟩ := collapseNL_nn (b :: c :: rest) r hr
    injection hr2 with hb hr3
    injection hr3 with hc _
    exact hcond (by rw [ha, hb, hc]; rfl)

/-! ### `stripWS`: prefix/suffix structure and edge characters -/

theorem dropTrailWS_append (l : List Char) : ∃ t, dropTrailWS l ++ t = l := by
  induction l with
  | nil => exact ⟨[], rfl⟩
  | cons c rest ih =>
    obtain ⟨t, ht⟩ := ih
    cases hD : dropTrailWS rest with
    | nil =>
      by_cases hp : pyWS c = true
      · refine ⟨c :: rest, ?_⟩
        simp only [dropTrailWS]
        rw [hD]
        simp [hp]
      · refine ⟨rest, ?_⟩
        simp only [dropTrailWS]
        rw [hD]
        simp [hp]
    | cons d r2 =>
      rw [hD] at ht
      refine ⟨t, ?_⟩
      simp only [dropTrailWS]
      rw [hD]
      show (c :: d :: r2) ++ t = c :: rest
      rw [List.cons_append, ht]

theorem dropTrailWS_headq (l : List Char) (h : dropTrailWS l ≠ []) :
    (dropTrailWS l).head? = l.head? := by
  cases l with
  | nil => simp [dropTrailWS] at h
  | cons c rest =>
    simp only [dropTrailWS] at h ⊢
    cases hD : dropTrailWS rest with
    | nil =>
      by_cases hp : pyWS c = true
      · rw [hD] at h
        simp [hp] at h
      · simp [hp]
    | cons d r2 =>
      rfl

theorem dropTrailWS_last (l : List Char) (x : Char)
    (h : (dropTrailWS l).getLast? = some x) : pyWS x = false := by
  induction l with
  | nil => simp [dropTrailWS] at h
  | cons c rest ih =>
    simp only [dropTrailWS] at h
    cases hD : dropTrailWS rest with
    | nil =>
      rw [hD] at h
      by_cases hp : pyWS c = true
      · rw [if_pos hp] at h
        simp at h
      · rw [if_neg hp] at h
        simp only [List.getLast?_singleton] at h
        injection h with h
        rw [← h]
        simpa using hp
    | cons d r2 =>
      rw [hD] at h
      apply ih
      rw [hD]
      rw [List.getLast?_cons_cons] at h
      exact h

theorem dropWhile_head_not (p : Char → Bool) (l : List Char) (x : Char)
    (h : (l.dropWhile p).head? = some x) : p x = false := by
  induction l with
  | nil => simp at h
  | cons c rest ih =>
    rw [List.dropWhile_cons] at h
    by_cases hp : p c = true
    · rw [if_pos hp] at h
      exact ih h
    · rw [if_neg hp] at h
      rw [List.head?_cons] at h
      injection h with h
      rw [← h]
      simpa using hp

theorem stripWS_mem {x : Char} {l : List Char} (h : x ∈ stripWS l) : x ∈ l := by
  obtain ⟨t, ht⟩ := dropTrailWS_append (l.dropWhile (fun c => pyWS c))
  have h1 : x ∈ l.dropWhile (fun c => pyWS c) := by
    rw [← ht]
    exact List.mem_append_left t h
  exact (List.dropWhile_sublist (fun c => pyWS c)).subset h1

theorem stripWS_noTwo (l : List Char) (h : hasTwoST l = false) :
    hasTwoST (stripWS l) = false := by
  obtain ⟨t, ht⟩ := dropTrailWS_append (l.dropWhile (fun c => pyWS c))
  simp only [stripWS]
  apply hasTwoST_append _ t
  rw [ht]
  exact hasTwoST_dropWhile _ _ h

theorem stripWS_noTriple (l : List Char) (h : hasTripleNL l = false) :
    hasTripleNL (stripWS l) = false := by
  obtain ⟨t, ht⟩ := dropTrailWS_append (l.dropWhile (fun c => pyWS c))
  simp only [stripWS]
  apply hasTripleNL_append _ t
  rw [ht]
  exact hasTripleNL_dropWhile _ _ h

theorem stripWS_head (l : List Char) (x : Char) (h : (stripWS l).head? = some x) :
    pyWS x = false := by
  have hne : stripWS l ≠ [] := by
    intro he
    rw [he] at h
    simp at h
  simp only [stripWS] at h hne
  rw [dropTrailWS_headq _ hne] at h
  exact dropWhile_head_not _ l x h

theorem stripWS_last (l : List Char) (x : Char) (h : (stripWS l).getLast? = some x) :
    pyWS x = false :=
  dropTrailWS_last _ x h

/-- Inversion of a successful `_preprocess_study_text`: the returned clean
text is the normalized input. -/
theorem preprocess_some_eq (raw clean : String)
    (h : _preprocess_study_text (some raw) = (some clean, none)) :
    clean = normalizeStr raw := by
  simp only [_preprocess_study_text] at h
  by_cases h1 : normalizeStr raw = ""
  · rw [if_pos h1] at h
    simp at h
  · rw [if_neg h1] at h
    by_cases h2 : (normalizeStr raw).length < 120
    · rw [if_pos h2] at h
      simp at h
    · rw [if_neg h2] at h
      simp only [Prod.mk.injEq, Option.some_inj] at h
      exact h.1.symm

/-- C5: every cleaned text accepted by preprocessing is whitespace-normalized:
no carriage returns, no tabs, no two adjacent spaces/tabs, no three adjacent
newlines, and no leading or trailing whitespace. -/
theorem clean_text_normalized (raw clean : String)
    (h : _preprocess_study_text (some raw) = (some clean, none)) :
    '\r' ∉ clean.data ∧ '\t' ∉ clean.data ∧
    hasTwoST clean.data = false ∧ hasTripleNL clean.data = false ∧
    (∀ c, clean.data.head? = some c → pyWS c = false) ∧
    (∀ c, clean.data.getLast? = some c → pyWS c = false) := by
  have hc : clean = normalizeStr raw := preprocess_some_eq raw clean h
  have hdata : clean.data = normalizeChars raw.data := by
    rw [hc]
    rfl
  rw [hdata]
  simp only [normalizeChars]
  refine ⟨?_, ?_, ?_, ?_, ?_, ?_⟩
  · intro hx
    have h1 := stripWS_mem hx
    have h2 := (collapseNL_sublist _).subset h1
    rcases collapseST_mem h2 with h3 | h3
    · exact absurd h3 (by decide)
    · exact normNewlines_no_cr _ h3
  · intro hx
    have h1 := stripWS_mem hx
    have h2 := (collapseNL_sublist _).subset h1
    exact collapseST_no_tab _ h2
  · exact stripWS_noTwo _ (collapseNL_noTwo _ (collapseST_noTwo _))
  · exact stripWS_noTriple _ (collapseNL_noTriple _)
  · intro c hc2
    exact stripWS_head _ c hc2
  · intro c hc2
    exact stripWS_last _ c hc2

/-- Witness for C5 at a concrete messy input: leading spaces and a trailing
tab are cleaned away, and the cleaned text satisfies the scanners. -/
theorem clean_text_normalized_witness :
    _preprocess_study_text (some ("   " ++ sampleText ++ "\t")) =
      (some sampleText, none) ∧
    hasTwoST sampleText.data = false ∧ hasTripleNL sampleText.data = false :=
  ⟨by decide,
   (clean_text_normalized ("   " ++ sampleText ++ "\t") sampleText (by decide)).2.2.1,
   (clean_text_normalized ("   " ++ sampleText ++ "\t") sampleText
      (by decide)).2.2.2.1⟩
